import Mathlib

/-!
Shallow embedding, in Lean 4, of the terrars runtime (`src/lib.rs`,
`src/list_ref.rs`) and of the generator's filtering pipeline
(`src/bin/terrars-generate.rs`), together with theorems settling the
frozen specification claims about this code.

Conventions used throughout:
* Rust `BTreeMap<String, V>` is embedded as a strictly-key-sorted
  association list `List (String × V)` with `btFind` / `btInsert`
  mirroring `get` / `insert` (insert replaces the value at an existing
  key and `btFind` observes whether a key was present, which is how the
  Rust code detects duplicates via `insert(..).is_some()`).
* `serde_json::Value` payloads extracted from entities
  (`extract_value`, `extract_provider`, ...) are opaque to
  `Stack::serialize`; they are embedded as an arbitrary type `α` with
  decidable equality (instantiated with `String` in concrete checks).
* serde_json (without the `preserve_order` feature) serializes maps with
  keys in sorted order, and `serde_json::to_vec_pretty` is a
  deterministic function of the value tree; the produced document is
  therefore embedded structurally as `Doc α`, with a deterministic
  renderer `renderDoc` standing in for the byte production.
-/

set_option maxRecDepth 4000

namespace Terrars

/-- Key-sorted association list lookup, the embedding of
`BTreeMap::get` / the membership observed by `BTreeMap::insert(..).is_some()`. -/
def btFind {α : Type} (k : String) : List (String × α) → Option α
  | [] => none
  | (k', v') :: t => if k = k' then some v' else btFind k t

/-- Key-sorted association list insert, the embedding of
`BTreeMap::insert`: it keeps keys strictly sorted and replaces the
value when the key is already present. -/
def btInsert {α : Type} (k : String) (v : α) : List (String × α) → List (String × α)
  | [] => [(k, v)]
  | (k', v') :: t =>
    if k < k' then (k, v) :: (k', v') :: t
    else if k = k' then (k, v) :: t
    else (k', v') :: btInsert k v t

/-- Embedding of the `ComponentType` enum of `src/lib.rs`. -/
inductive ComponentType where
  | ProviderType
  | Provider
  | Variable
  | Datasource
  | Resource
  | Output
deriving DecidableEq, Repr

/-- Rendering of `ComponentType` under Rust's derived `Debug`, as used by
the `thiserror` message format of `StackError`. -/
def ComponentType.debugStr : ComponentType → String
  | .ProviderType => "ProviderType"
  | .Provider => "Provider"
  | .Variable => "Variable"
  | .Datasource => "Datasource"
  | .Resource => "Resource"
  | .Output => "Output"

/-- Embedding of `StackError` of `src/lib.rs`. -/
inductive StackError where
  | Duplicate (kind : ComponentType) (tfId : String)
deriving DecidableEq, Repr

/-- Embedding of the `thiserror` display string
`"Duplicate {0:?} with tf_id {1}"` for `StackError::Duplicate`. -/
def StackError.message : StackError → String
  | .Duplicate kind tfId => "Duplicate " ++ kind.debugStr ++ " with tf_id " ++ tfId

/-- Embedding of one provider held by a `Stack`: the three values its
`Provider` trait methods return (`extract_type_tf_id`,
`extract_provider_type`, `extract_provider`). -/
structure ProviderE (α : Type) where
  typeTfId : String
  providerType : α
  provider : α
deriving DecidableEq, Repr

/-- Embedding of `Stack` of `src/lib.rs`: the five entity sequences in
insertion order plus the shared sentinel ledger (`replace_exprs`).
Datasources and resources carry `(type, tf_id, value)`, variables and
outputs carry `(tf_id, value)`, exactly the data `serialize` extracts
through the entity traits.  (The Rust field `variables` is called
`vars` here because `variables` is a reserved token in Lean.) -/
structure Stack (α : Type) where
  providers : List (ProviderE α)
  vars : List (String × α)
  datasources : List (String × String × α)
  resources : List (String × String × α)
  outputs : List (String × α)
  replaceExprs : List (String × String)
deriving DecidableEq, Repr

/-- Embedding of the serialized document (the `out` map of
`Stack::serialize` just before `serde_json::to_vec_pretty`): the
`terraform` section is always present (backend path and
`required_providers`), the other five top-level sections are `none`
exactly when they were omitted because their mapping was empty.
The `provider` section maps a type to a list of values; the other
sections map types/ids to values. -/
structure Doc (α : Type) where
  statePath : String
  requiredProviders : List (String × α)
  providerSection : Option (List (String × List α))
  variableSection : Option (List (String × α))
  dataSection : Option (List (String × List (String × α)))
  resourceSection : Option (List (String × List (String × α)))
  outputSection : Option (List (String × α))
deriving DecidableEq, Repr

/-- Embedding of the `required_providers` loop of `Stack::serialize`
(lines 185-193 of `src/lib.rs`): vacant entries are inserted, occupied
entries are left untouched (first provider of a type wins). -/
def reqStep {α : Type} (m : List (String × α)) (p : ProviderE α) : List (String × α) :=
  match btFind p.typeTfId m with
  | some _ => m
  | none => btInsert p.typeTfId p.providerType m

/-- The full `required_providers` map built from the provider sequence. -/
def requiredProvidersMap {α : Type} (ps : List (ProviderE α)) : List (String × α) :=
  ps.foldl reqStep []

/-- Embedding of the provider-section loop of `Stack::serialize`
(lines 194-197 of `src/lib.rs`):
`providers.entry(type).or_insert_with(Vec::new).push(value)`. -/
def provStep {α : Type} (m : List (String × List α)) (p : ProviderE α) : List (String × List α) :=
  btInsert p.typeTfId (((btFind p.typeTfId m).getD []) ++ [p.provider]) m

/-- The full provider-section map built from the provider sequence. -/
def providersMap {α : Type} (ps : List (ProviderE α)) : List (String × List α) :=
  ps.foldl provStep []

/-- Embedding of the flat duplicate-checking loops of `Stack::serialize`
(variables, outputs): `if map.insert(id, value).is_some() { Err(Duplicate(kind, id))? }`.
Checking presence before inserting is equivalent to checking the old
value returned by the replacing insert. -/
def buildFlat {α : Type} (kind : ComponentType) (acc : List (String × α)) :
    List (String × α) → Except StackError (List (String × α))
  | [] => .ok acc
  | (k, v) :: t =>
    if (btFind k acc).isSome then .error (.Duplicate kind k)
    else buildFlat kind (btInsert k v acc) t

/-- One step of the nested (type-then-id) duplicate-checking loops of
`Stack::serialize` (datasources, resources):
`map.entry(type).or_insert_with(BTreeMap::new).insert(id, value)`. -/
def nestedIns {α : Type} (ty tfId : String) (v : α)
    (m : List (String × List (String × α))) : List (String × List (String × α)) :=
  btInsert ty (btInsert tfId v ((btFind ty m).getD [])) m

/-- Embedding of the nested duplicate-checking loops of `Stack::serialize`. -/
def buildNested {α : Type} (kind : ComponentType) (acc : List (String × List (String × α))) :
    List (String × String × α) → Except StackError (List (String × List (String × α)))
  | [] => .ok acc
  | (ty, tfId, v) :: t =>
    if (btFind tfId ((btFind ty acc).getD [])).isSome then .error (.Duplicate kind tfId)
    else buildNested kind (nestedIns ty tfId v acc) t

/-- Embedding of `Stack::serialize` of `src/lib.rs` (lines 181-257):
build `required_providers` (first provider of a type wins), group
providers per type into lists, then build the variable, data, resource
and output maps in that order, failing on the first duplicate
`(type, tf_id)`; finally assemble the document, omitting every section
whose mapping is empty (the `terraform` section is always present). -/
def serialize {α : Type} (s : Stack α) (statePath : String) : Except StackError (Doc α) := do
  let req := requiredProvidersMap s.providers
  let provs := providersMap s.providers
  let vars ← buildFlat .Variable [] s.vars
  let datas ← buildNested .Datasource [] s.datasources
  let ress ← buildNested .Resource [] s.resources
  let outs ← buildFlat .Output [] s.outputs
  return {
    statePath := statePath
    requiredProviders := req
    providerSection := if provs.isEmpty then none else some provs
    variableSection := if vars.isEmpty then none else some vars
    dataSection := if datas.isEmpty then none else some datas
    resourceSection := if ress.isEmpty then none else some ress
    outputSection := if outs.isEmpty then none else some outs
  }

/-- Embedding of one whole `serialize` call as observed from outside,
including the `REPLACE_EXPRS` thread-local: the call unconditionally
installs a snapshot of the shared ledger on entry (lines 182-184 of
`src/lib.rs`, overwriting whatever the thread-local held before), and
resets the thread-local to `None` only on the success path (line 254);
every duplicate-error path (`Err(..)?` at lines 201, 211, 221, 227)
returns early, before the reset, leaving the installed snapshot in
place.  The call takes `&self` and only reads the shared ledger, so the
stack comes back unchanged; the triple returned is (result, stack after
call, thread-local after call). -/
def serializeCall {α : Type} (s : Stack α) (statePath : String)
    (_tl : Option (List (String × String))) :
    Except StackError (Doc α) × Stack α × Option (List (String × String)) :=
  (serialize s statePath, s,
    match serialize s statePath with
    | .ok _ => none
    | .error _ => some s.replaceExprs)

/-- Renders a string as a JSON string literal.  The concrete values used
in the checks below contain no characters needing escapes, so plain
quoting is a faithful model of serde_json's string output for them. -/
def renderStr (s : String) : String := "\"" ++ s ++ "\""

/-- Renders a JSON object from an already key-sorted association list,
one entry per key, in order (serde_json maps are `BTreeMap`-backed, so
this is the order `to_vec_pretty` emits). -/
def renderPairs {α : Type} (f : α → String) (l : List (String × α)) : String :=
  "\x7b" ++ String.intercalate "," (l.map fun kv => renderStr kv.1 ++ ":" ++ f kv.2) ++ "\x7d"

/-- Renders a JSON array. -/
def renderArr {α : Type} (f : α → String) (l : List α) : String :=
  "[" ++ String.intercalate "," (l.map f) ++ "]"

/-- Renders one optional top-level section; an omitted section
contributes nothing to the document. -/
def renderOptSection (name : String) : Option String → List String
  | none => []
  | some c => [renderStr name ++ ":" ++ c]

/-- Deterministic byte-level model of `serde_json::to_vec_pretty(&out)`
in `Stack::serialize` (modulo whitespace, which is itself a fixed
function of the structure).  `out` is a `BTreeMap`, so the sections
appear in sorted key order:
`data < output < provider < resource < terraform < variable`. -/
def renderDoc (d : Doc String) : String :=
  let secs :=
    renderOptSection "data" (d.dataSection.map (renderPairs (renderPairs renderStr))) ++
    renderOptSection "output" (d.outputSection.map (renderPairs renderStr)) ++
    renderOptSection "provider" (d.providerSection.map (renderPairs (renderArr renderStr))) ++
    renderOptSection "resource" (d.resourceSection.map (renderPairs (renderPairs renderStr))) ++
    [renderStr "terraform" ++ ":\x7b" ++
      renderStr "backend" ++ ":\x7b" ++ renderStr "local" ++ ":\x7b" ++
        renderStr "path" ++ ":" ++ renderStr d.statePath ++ "\x7d\x7d," ++
      renderStr "required_providers" ++ ":" ++ renderPairs renderStr d.requiredProviders ++
      "\x7d"] ++
    renderOptSection "variable" (d.variableSection.map (renderPairs renderStr))
  "\x7b" ++ String.intercalate "," secs ++ "\x7d"

/-- Embedding of the `IgnoreChangesAll` enum of `src/lib.rs`. -/
inductive IgnoreChangesAll where
  | All
deriving DecidableEq, Repr

/-- Embedding of the `IgnoreChanges` enum of `src/lib.rs`: the
all-variant or an explicit attribute-reference list. -/
inductive IgnoreChanges where
  | All (a : IgnoreChangesAll)
  | Refs (l : List String)
deriving DecidableEq, Repr

/-- Embedding of the `ResourceLifecycle` struct of `src/lib.rs`. -/
structure ResourceLifecycle where
  create_before_destroy : Bool
  prevent_destroy : Bool
  ignore_changes : Option IgnoreChanges
  replace_triggered_by : List String
deriving DecidableEq, Repr

/-- The `Default` value of `ResourceLifecycle` (Rust `derive(Default)`). -/
def ResourceLifecycle.default : ResourceLifecycle :=
  { create_before_destroy := false, prevent_destroy := false
    ignore_changes := none, replace_triggered_by := [] }

/-- Embedding of the generated `ignore_changes_to_all` mutator
(`src/bin/terrars-generate.rs`, lines 357-361): unconditionally sets the
all-variant. -/
def ignore_changes_to_all (d : ResourceLifecycle) : ResourceLifecycle :=
  { d with ignore_changes := some (IgnoreChanges.All IgnoreChangesAll.All) }

/-- Embedding of the generated `ignore_changes_to_attr` mutator
(`src/bin/terrars-generate.rs`, lines 362-381).  The Rust body computes
a boolean: `Refs` pushes in place and yields `false`; `All(_)` and
`None` yield `true`; when the boolean is `true` the field is assigned
`Some(IgnoreChanges::Refs(vec![attr]))`.  In particular the `All`
variant is overwritten with a fresh one-element explicit list. -/
def ignore_changes_to_attr (d : ResourceLifecycle) (attr : String) : ResourceLifecycle :=
  match d.ignore_changes with
  | some (IgnoreChanges.Refs r) =>
    { d with ignore_changes := some (IgnoreChanges.Refs (r ++ [attr])) }
  | some (IgnoreChanges.All _) =>
    { d with ignore_changes := some (IgnoreChanges.Refs [attr]) }
  | none =>
    { d with ignore_changes := some (IgnoreChanges.Refs [attr]) }

/-- Constructor interface of reference handles: the `new(shared, base)`
constructor that `src/list_ref.rs` requires of `ListRef` element types
and that every generated `...Ref` type implements
(`impl Ref for <X>Ref { fn new(shared, base) }` in
`src/bin/terrars-generate.rs`).  The `shared` handle is opaque to every
claim here and is omitted. -/
class RefNew (β : Type) where
  new : String → β

/-- Embedding of `ListRef<T>` of `src/list_ref.rs`: the indexed list
reference wrapper, holding the base expression path. -/
structure ListRef (β : Type) where
  base : String
deriving DecidableEq, Repr

/-- Embedding of `ListRef::get` (`src/list_ref.rs`, lines 42-44): index
access by a literal integer, producing an element reference at
`"{base}[{index}]"`. -/
def ListRef.get {β : Type} [RefNew β] (l : ListRef β) (index : Nat) : β :=
  RefNew.new (l.base ++ "[" ++ toString index ++ "]")

/-- Embedding of `MapListRef<T>` of `src/list_ref.rs` (lines 57-80): the
reference wrapper for loop-mapped list outputs.  Its only method is
`map`; it has no `get`, so no literal-integer index access. -/
structure MapListRef (β : Type) where
  base : String
  map_base : String
deriving DecidableEq, Repr

/-- Data record of a generated resource of type `"x_thing"`, reduced to
the fields the claims observe (`tf_id` and the `for_each` expression of
the loop-expansion support). -/
structure ResourceX where
  tf_id : String
  for_each : Option String
deriving DecidableEq, Repr

/-- The generated reference handle type `XThingRef` for that resource;
the generated code gives it the `new(shared, base)` constructor
(`impl Ref for XThingRef`). -/
structure ResourceXRef where
  base : String
deriving DecidableEq, Repr

instance : RefNew ResourceXRef := ⟨ResourceXRef.mk⟩

/-- Embedding of the generated `extract_ref`:
`format!("{}.{}", extract_resource_type(), extract_tf_id())`. -/
def ResourceX.extract_ref (r : ResourceX) : String :=
  "x_thing." ++ r.tf_id

/-- Embedding of the generated `impl ToListMappable` for a resource
(`src/bin/terrars-generate.rs`, lines 399-405): `do_map` sets the
resource's `for_each` to `"${base}"` and returns
`ListRef::new(shared, extract_ref())` — a `ListRef<XThingRef>`, the very
same list-reference type used for static list outputs.  The pair
returned here is (resource data after the interior mutation, returned
reference). -/
def ResourceX.do_map (r : ResourceX) (base : String) : ResourceX × ListRef ResourceXRef :=
  ({ r with for_each := some ("$\x7b" ++ base ++ "\x7d") }, ⟨r.extract_ref⟩)

/-- Removal of an element from a set represented as a duplicate-free
list; the embedding of `HashSet::remove`'s effect on the set. -/
def setErase (l : List String) (x : String) : List String :=
  l.filter fun y => !(y == x)

/-- State threaded through the generator's per-provider loop over
resources and datasources: the remaining include set, the remaining
exclude set, and the names generated so far (in processing order). -/
structure GenState where
  inc : List String
  exc : List String
  generated : List String
deriving DecidableEq, Repr

/-- Embedding of the filtering done per resource in `main` of
`src/bin/terrars-generate.rs` (lines 300-305):
`if whitelist && !include.remove(name) { continue; }` then
`if exclude.remove(name) { continue; }`, else generate.  Note that the
exclude test runs after (and independently of) the whitelist test, and
that a skip via the whitelist test happens before `exclude.remove` is
reached. -/
def procResource (whitelist : Bool) (st : GenState) (name : String) : GenState :=
  if whitelist && !(st.inc.contains name) then st
  else
    let inc' := if whitelist then setErase st.inc name else st.inc
    { inc := inc'
      exc := setErase st.exc name
      generated := if st.exc.contains name then st.generated else st.generated ++ [name] }

/-- Embedding of the filtering done per datasource in `main` of
`src/bin/terrars-generate.rs` (lines 494-496): only
`if whitelist && !include.remove(name) { continue; }` — the exclude set
is never consulted for datasources. -/
def procDatasource (whitelist : Bool) (st : GenState) (name : String) : GenState :=
  if whitelist && !(st.inc.contains name) then st
  else
    { inc := if whitelist then setErase st.inc name else st.inc
      exc := st.exc
      generated := st.generated ++ [name] }

/-- Embedding of one generation run's filtering pipeline
(`src/bin/terrars-generate.rs`): `whitelist = !include.is_empty()`
(line 105), the resource loop, the datasource loop, then the unmatched
whitelist check (lines 623-627), which fails with the set of include
entries never matched by any resource or datasource.  Inputs are the
nice (prefix-stripped, snake-cased) resource and datasource names in
schema iteration order; the success value is the list of generated
names. -/
def generateRun (inc exc resources datasources : List String) :
    Except (List String) (List String) :=
  let whitelist := !inc.isEmpty
  let st1 := resources.foldl (procResource whitelist) ⟨inc, exc, []⟩
  let st2 := datasources.foldl (procDatasource whitelist) st1
  if whitelist && !st2.inc.isEmpty then .error st2.inc else .ok st2.generated

/-- Counts the occurrences of the pattern `p` (at every start position,
overlap allowed) in a character sequence. -/
def countOcc (p : List Char) : List Char → Nat
  | [] => 0
  | c :: t => (if p <+: (c :: t) then 1 else 0) + countOcc p t

/-- Leftmost, non-overlapping replacement of every occurrence of `p` by
`r` — the behavior of Rust's `str::replace`, used for the single
sentinel-substitution pass. -/
def replaceAll (p r : List Char) (s : List Char) : List Char :=
  if _hp : p = [] then s
  else
    match s with
    | [] => []
    | c :: t =>
      if p <+: (c :: t) then r ++ replaceAll p r (t.drop (p.length - 1))
      else c :: replaceAll p r t
termination_by s.length
decreasing_by
  · simp only [List.length_cons, List.length_drop]
    omega
  · simp [Nat.lt_succ_self]

/-- The sentinel token generated by `StackShared::add_sentinel` for the
`n`-th registered expression: `format!("_TERRARS_SENTINEL_{}_", n)`
(`src/lib.rs`, line 140). -/
def sentinelToken (n : Nat) : List Char :=
  ("_TERRARS_SENTINEL_" ++ toString n ++ "_").data

/-- The ledger text stored for a registered expression `v`:
`format!("${{{}}}", v)`, i.e. `"${v}"` (`src/lib.rs`, line 141). -/
def sentinelValue (v : String) : List Char :=
  ("$\x7b" ++ v ++ "\x7d").data

/-- Embedding of `StackShared::add_sentinel` (`src/lib.rs`, lines
138-143): generates the token from the current ledger length, appends
`(token, "${v}")` to the ledger, and returns the token. -/
def addSentinel (ledger : List (List Char × List Char)) (v : String) :
    List Char × List (List Char × List Char) :=
  let k := sentinelToken ledger.length
  (k, ledger ++ [(k, sentinelValue v)])

/-- Modelled from the spec: the resolution of the sentinel ledger
against the fully-serialized document, "substituting every token for its
ledger text" in one pass.  The consumer of the `REPLACE_EXPRS`
thread-local snapshot taken by `Stack::serialize` lives in
`src/utils.rs` and the field-serializer modules, which are not part of
the sources provided under `src/`; only the substitution itself is
modelled here, as the per-token `str::replace` pass the spec
describes. -/
def resolveAll (ledger : List (List Char × List Char)) (doc : List Char) : List Char :=
  ledger.foldl (fun d kv => replaceAll kv.1 kv.2 d) doc

/-! Helper lemmas about the `BTreeMap` embedding. -/

theorem btFind_btInsert_self {α : Type} (k : String) (v : α) (m : List (String × α)) :
    btFind k (btInsert k v m) = some v := by
  induction m with
  | nil => simp [btInsert, btFind]
  | cons p t ih =>
    obtain ⟨k', v'⟩ := p
    by_cases h1 : k < k'
    · simp [btInsert, btFind, h1]
    · by_cases h2 : k = k'
      · simp [btInsert, btFind, h1, h2]
      · simp [btInsert, btFind, h1, h2, ih]

theorem btFind_btInsert_ne {α : Type} {k k' : String} (h : k ≠ k') (v : α)
    (m : List (String × α)) : btFind k (btInsert k' v m) = btFind k m := by
  induction m with
  | nil => simp [btInsert, btFind, h]
  | cons p t ih =>
    obtain ⟨a, b⟩ := p
    by_cases h1 : k' < a
    · simp [btInsert, btFind, h1, h]
    · by_cases h2 : k' = a
      · subst h2
        simp [btInsert, btFind, h1, h]
      · simp [btInsert, btFind, h1, h2, ih]

theorem btInsert_ne_nil {α : Type} (k : String) (v : α) (m : List (String × α)) :
    btInsert k v m ≠ [] := by
  cases m with
  | nil => simp [btInsert]
  | cons p t =>
    obtain ⟨a, b⟩ := p
    by_cases h1 : k < a
    · simp [btInsert, h1]
    · by_cases h2 : k = a
      · simp [btInsert, h1, h2]
      · simp [btInsert, h1, h2]

theorem btInsert_btInsert_self {α : Type} (k : String) (v v' : α) (m : List (String × α)) :
    btInsert k v (btInsert k v' m) = btInsert k v m := by
  induction m with
  | nil => simp [btInsert]
  | cons p t ih =>
    obtain ⟨a, b⟩ := p
    by_cases h1 : k < a
    · simp [btInsert, h1, lt_irrefl]
    · by_cases h2 : k = a
      · simp [btInsert, h1, h2, lt_irrefl]
      · simp [btInsert, h1, h2, ih]

theorem btInsert_comm {α : Type} {k k' : String} (h : k ≠ k') (v v' : α)
    (m : List (String × α)) :
    btInsert k v (btInsert k' v' m) = btInsert k' v' (btInsert k v m) := by
  induction m with
  | nil =>
    rcases lt_or_gt_of_ne h with hlt | hgt
    · simp [btInsert, hlt, asymm hlt, h, Ne.symm h]
    · simp [btInsert, hgt, asymm hgt, h, Ne.symm h]
  | cons p t ih =>
    obtain ⟨a, b⟩ := p
    rcases lt_trichotomy k a with h1 | h1 | h1 <;>
      rcases lt_trichotomy k' a with h2 | h2 | h2
    · rcases lt_or_gt_of_ne h with h3 | h3
      · simp [btInsert, h1, h2, h3, asymm h3, h, Ne.symm h]
      · simp [btInsert, h1, h2, h3, asymm h3, h, Ne.symm h]
    · subst h2
      simp [btInsert, h1, lt_irrefl, h, asymm h1, Ne.symm h]
    · have h3 : k < k' := lt_trans h1 h2
      simp [btInsert, h1, h2, h3, asymm h3, asymm h2, ne_of_gt h2, h, Ne.symm h]
    · subst h1
      simp [btInsert, h2, lt_irrefl, h, Ne.symm h, asymm h2]
    · exact absurd (h1.trans h2.symm) h
    · subst h1
      simp [btInsert, h2, lt_irrefl, Ne.symm h, asymm h2, h]
    · have h3 : k' < k := lt_trans h2 h1
      simp [btInsert, h1, h2, h3, asymm h3, asymm h1, ne_of_gt h1, h, Ne.symm h]
    · subst h2
      simp [btInsert, h1, lt_irrefl, h, asymm h1, Ne.symm h]
    · simp [btInsert, h1, h2, asymm h1, asymm h2, ne_of_gt h1, ne_of_gt h2, ih]

/-! Claim C1: `ignore_changes` after the all-variant. -/

/-- Claim C1 is false on the code: after `ignore_changes_to_all()`, a
call `ignore_changes_to_attr("name")` does not keep the all-variant — it
overwrites it with the one-element explicit list `["name"]`. -/
theorem c1_counterexample :
    (ignore_changes_to_attr (ignore_changes_to_all ResourceLifecycle.default)
        "name").ignore_changes = some (IgnoreChanges.Refs ["name"]) ∧
    (ignore_changes_to_attr (ignore_changes_to_all ResourceLifecycle.default)
        "name").ignore_changes ≠ some (IgnoreChanges.All IgnoreChangesAll.All) := by
  constructor
  · rfl
  · decide

/-- Amended claim C1: calling `ignore_changes_to_attr(a)` when the
lifecycle's `ignore_changes` is the all-variant is not a no-op: it
replaces the all-variant with the explicit one-element list `[a]` ("all"
is downgraded back to a list); in particular `ignore_changes_to_all()`
followed by `ignore_changes_to_attr("name")` leaves the explicit list
`["name"]`. -/
theorem c1_attr_overwrites_all (d : ResourceLifecycle) (attr : String)
    (h : d.ignore_changes = some (IgnoreChanges.All IgnoreChangesAll.All)) :
    (ignore_changes_to_attr d attr).ignore_changes = some (IgnoreChanges.Refs [attr]) := by
  unfold ignore_changes_to_attr
  rw [h]

theorem c1_witness :
    (ignore_changes_to_all ResourceLifecycle.default).ignore_changes =
        some (IgnoreChanges.All IgnoreChangesAll.All) ∧
    (ignore_changes_to_attr (ignore_changes_to_all ResourceLifecycle.default)
        "name").ignore_changes = some (IgnoreChanges.Refs ["name"]) :=
  ⟨rfl, c1_attr_overwrites_all (ignore_changes_to_all ResourceLifecycle.default) "name" rfl⟩

/-! Claim C6: the reference returned by `for_each`-expanding an entity. -/

/-- Claim C6 is false on the code: the value returned by `do_map` on a
generated resource is a `ListRef` — the same indexed-list reference type
used for static list outputs — and literal-integer index access via
`ListRef::get` is available on it, producing `"x_thing.a[3]"`. -/
theorem c6_counterexample :
    ((ResourceX.do_map ⟨"a", none⟩ "data.x_things.source.ids").2).get 3 =
      ResourceXRef.mk "x_thing.a[3]" ∧
    (ResourceX.do_map ⟨"a", none⟩ "data.x_things.source.ids").1.for_each =
      some "$\x7bdata.x_things.source.ids\x7d" := by
  constructor
  · rfl
  · rfl

/-- Amended claim C6: `do_map` on a `for_each`-expanded entity returns a
`ListRef` over the entity's reference type — the same list-reference
type that exposes `get` (index access by literal integer) for
non-`for_each` list outputs — with base `"<type>.<tf_id>"`, so
`get i` on it yields the reference `"<type>.<tf_id>[i]"`; the distinct
reference type without integer index access (`MapListRef`) is produced
only for loop-mapped list outputs, not by entity `do_map`. -/
theorem c6_do_map_is_indexable (r : ResourceX) (base : String) (i : Nat) :
    ((ResourceX.do_map r base).2).get i =
      ResourceXRef.mk (r.extract_ref ++ "[" ++ toString i ++ "]") ∧
    (ResourceX.do_map r base).1.for_each = some ("$\x7b" ++ base ++ "\x7d") := by
  constructor
  · rfl
  · rfl

/-! Claim C2: the shape of the duplicate-resource error. -/

/-- Claim C2 is false on the code: with two resources of type
`"x_thing"` both with tf_id `"a"`, `serialize` does fail, but the
`Duplicate` error carries the component kind `Resource` and the id
`"a"` — the resource type `"x_thing"` appears nowhere in the error (its
rendered message is `"Duplicate Resource with tf_id a"`, with zero
occurrences of `"x_thing"`). -/
theorem c2_counterexample :
    serialize (α := String)
        ⟨[], [], [], [("x_thing", "a", "v1"), ("x_thing", "a", "v2")], [], []⟩ "state" =
      .error (.Duplicate .Resource "a") ∧
    (StackError.Duplicate .Resource "a").message = "Duplicate Resource with tf_id a" ∧
    countOcc "x_thing".data (StackError.Duplicate .Resource "a").message.data = 0 := by
  refine ⟨rfl, rfl, by decide⟩

/-- Amended claim C2: for every stack containing two resources of the
same resource type that share the same tf_id, `serialize` returns a
`Duplicate` error carrying the component kind `Resource` (not the
resource type string) and the shared tf_id. -/
theorem c2_duplicate_resource_error (ty tfId : String) (v1 v2 : String) (p : String) :
    serialize (α := String) ⟨[], [], [], [(ty, tfId, v1), (ty, tfId, v2)], [], []⟩ p =
      .error (.Duplicate .Resource tfId) := by
  simp [serialize, buildFlat, buildNested, nestedIns, btFind, btInsert,
    btFind_btInsert_self, Bind.bind, Except.bind]

/-! Fold lemmas for the provider section and `required_providers`. -/

/-- The provider-section grouping (`entry().or_insert_with(Vec::new).push`)
keyed lookup, characterized over the fold: the list at a type key is
whatever the accumulator held, extended by the providers of that type in
insertion order. -/
theorem btFind_provFold {α : Type} (ty : String) (ps : List (ProviderE α)) :
    ∀ m : List (String × List α),
    btFind ty (ps.foldl provStep m) =
      match btFind ty m with
      | some l => some (l ++ (ps.filter fun q => q.typeTfId == ty).map ProviderE.provider)
      | none =>
        if (ps.filter fun q => q.typeTfId == ty).isEmpty then none
        else some ((ps.filter fun q => q.typeTfId == ty).map ProviderE.provider) := by
  induction ps with
  | nil =>
    intro m
    cases h : btFind ty m <;> simp [h, List.filter]
  | cons p t ih =>
    intro m
    by_cases hp : p.typeTfId = ty
    · have hfind : btFind ty (provStep m p) =
          some (((btFind ty m).getD []) ++ [p.provider]) := by
        rw [provStep, hp, btFind_btInsert_self]
      have hbeq : (p.typeTfId == ty) = true := by simp [hp]
      rw [List.foldl_cons, ih (provStep m p), hfind]
      cases h : btFind ty m <;> simp [h, List.filter_cons, hbeq]
    · have hfind : btFind ty (provStep m p) = btFind ty m := by
        rw [provStep]
        exact btFind_btInsert_ne (fun he => hp he.symm) _ _
      have hbeq : (p.typeTfId == ty) = false := by simp [hp]
      rw [List.foldl_cons, ih (provStep m p), hfind]
      cases h : btFind ty m <;> simp [h, List.filter_cons, hbeq]

/-- The `required_providers` fold keyed lookup: an already-present key
keeps its value, otherwise the first provider of that type (in insertion
order) supplies it. -/
theorem btFind_reqFold {α : Type} (ty : String) (ps : List (ProviderE α)) :
    ∀ m : List (String × α),
    btFind ty (ps.foldl reqStep m) =
      match btFind ty m with
      | some v => some v
      | none => (ps.find? fun q => q.typeTfId == ty).map ProviderE.providerType := by
  induction ps with
  | nil =>
    intro m
    cases h : btFind ty m <;> simp [h]
  | cons p t ih =>
    intro m
    rw [List.foldl_cons, ih (reqStep m p)]
    cases hm : btFind p.typeTfId m with
    | some w =>
      have hstep : reqStep m p = m := by rw [reqStep, hm]
      rw [hstep]
      cases h : btFind ty m with
      | some v => simp [h]
      | none =>
        have hbeq : (p.typeTfId == ty) = false := by
          by_cases he : p.typeTfId = ty
          · rw [he] at hm
            rw [hm] at h
            exact Option.noConfusion h
          · simp [he]
        simp [h, List.find?_cons, hbeq]
    | none =>
      have hstep : reqStep m p = btInsert p.typeTfId p.providerType m := by
        rw [reqStep, hm]
      rw [hstep]
      by_cases hp : p.typeTfId = ty
      · subst hp
        rw [btFind_btInsert_self, hm]
        simp [List.find?_cons]
      · rw [btFind_btInsert_ne (fun he => hp he.symm)]
        have hbeq : (p.typeTfId == ty) = false := by simp [hp]
        cases h : btFind ty m <;> simp [h, List.find?_cons, hbeq]

/-! Claim C8: the provider section groups values in per-type lists. -/

/-- Claim C8 holds: the provider section maps each provider type to the
list of all that type's provider values in insertion order; a stack with
any number of same-type providers serializes without a duplicate error
(the provider loops perform no duplicate check). -/
theorem c8_provider_grouping (ps : List (ProviderE String))
    (re : List (String × String)) (p ty : String) :
    serialize ⟨ps, [], [], [], [], re⟩ p =
      .ok { statePath := p
            requiredProviders := requiredProvidersMap ps
            providerSection :=
              if (providersMap ps).isEmpty then none else some (providersMap ps)
            variableSection := none
            dataSection := none
            resourceSection := none
            outputSection := none } ∧
    btFind ty (providersMap ps) =
      (if ((ps.filter fun q => q.typeTfId == ty)).isEmpty then none
       else some ((ps.filter fun q => q.typeTfId == ty).map ProviderE.provider)) := by
  refine ⟨rfl, ?_⟩
  exact btFind_provFold ty ps []

/-! Claim C10: `required_providers` keeps the first provider of a type. -/

/-- Claim C10 holds: serializing a stack whose providers share type ids
raises no error, and the `required_providers` entry for a type id is the
source/version object (`extract_provider_type`) of the first-added
provider of that type; later same-type providers contribute nothing to
that section. -/
theorem c10_required_providers_first_wins (ps : List (ProviderE String))
    (re : List (String × String)) (p ty : String) :
    serialize ⟨ps, [], [], [], [], re⟩ p =
      .ok { statePath := p
            requiredProviders := requiredProvidersMap ps
            providerSection :=
              if (providersMap ps).isEmpty then none else some (providersMap ps)
            variableSection := none
            dataSection := none
            resourceSection := none
            outputSection := none } ∧
    btFind ty (requiredProvidersMap ps) =
      (ps.find? fun q => q.typeTfId == ty).map ProviderE.providerType := by
  refine ⟨rfl, ?_⟩
  exact btFind_reqFold ty ps []

/-! Emptiness lemmas for the serialized sections. -/

theorem buildFlat_ok_ne_nil {α : Type} (kind : ComponentType) :
    ∀ (l acc m : List (String × α)),
    buildFlat kind acc l = .ok m → acc ≠ [] → m ≠ [] := by
  intro l
  induction l with
  | nil =>
    intro acc m h hacc
    rw [buildFlat] at h
    cases h
    exact hacc
  | cons kv t ih =>
    intro acc m h hacc
    obtain ⟨k, v⟩ := kv
    rw [buildFlat] at h
    by_cases hf : (btFind k acc).isSome
    · rw [if_pos hf] at h
      exact Except.noConfusion h
    · rw [if_neg hf] at h
      exact ih _ _ h (btInsert_ne_nil _ _ _)

theorem buildNested_ok_ne_nil {α : Type} (kind : ComponentType) :
    ∀ (l : List (String × String × α)) (acc m : List (String × List (String × α))),
    buildNested kind acc l = .ok m → acc ≠ [] → m ≠ [] := by
  intro l
  induction l with
  | nil =>
    intro acc m h hacc
    rw [buildNested] at h
    cases h
    exact hacc
  | cons x t ih =>
    intro acc m h hacc
    obtain ⟨ty, tfId, v⟩ := x
    rw [buildNested] at h
    by_cases hf : (btFind tfId ((btFind ty acc).getD [])).isSome
    · rw [if_pos hf] at h
      exact Except.noConfusion h
    · rw [if_neg hf] at h
      exact ih _ _ h (btInsert_ne_nil _ _ _)

theorem buildFlat_empty_iff {α : Type} (kind : ComponentType)
    (l : List (String × α)) (m : List (String × α))
    (h : buildFlat kind [] l = .ok m) : m = [] ↔ l = [] := by
  cases l with
  | nil =>
    rw [buildFlat] at h
    cases h
    simp
  | cons kv t =>
    obtain ⟨k, v⟩ := kv
    rw [buildFlat] at h
    have hf : (btFind k ([] : List (String × α))).isSome = false := rfl
    rw [hf] at h
    simp only [Bool.false_eq_true, if_false] at h
    have := buildFlat_ok_ne_nil kind t _ _ h (btInsert_ne_nil _ _ _)
    simp [this]

theorem buildNested_empty_iff {α : Type} (kind : ComponentType)
    (l : List (String × String × α)) (m : List (String × List (String × α)))
    (h : buildNested kind [] l = .ok m) : m = [] ↔ l = [] := by
  cases l with
  | nil =>
    rw [buildNested] at h
    cases h
    simp
  | cons x t =>
    obtain ⟨ty, tfId, v⟩ := x
    rw [buildNested] at h
    have hf : (btFind tfId ((btFind ty ([] : List (String × List (String × α)))).getD
        [])).isSome = false := rfl
    rw [hf] at h
    simp only [Bool.false_eq_true, if_false] at h
    have := buildNested_ok_ne_nil kind t _ _ h (btInsert_ne_nil _ _ _)
    simp [this]

theorem provFold_ne_nil {α : Type} :
    ∀ (ps : List (ProviderE α)) (m : List (String × List α)),
    m ≠ [] → ps.foldl provStep m ≠ [] := by
  intro ps
  induction ps with
  | nil => intro m hm; exact hm
  | cons p t ih =>
    intro m _
    rw [List.foldl_cons]
    exact ih _ (btInsert_ne_nil _ _ _)

theorem providersMap_empty_iff {α : Type} (ps : List (ProviderE α)) :
    providersMap ps = [] ↔ ps = [] := by
  cases ps with
  | nil => simp [providersMap]
  | cons p t =>
    have : providersMap (p :: t) ≠ [] := by
      rw [providersMap, List.foldl_cons]
      exact provFold_ne_nil t _ (btInsert_ne_nil _ _ _)
    simp [this]

/-! Claim C7: empty sections are omitted from the document. -/

/-- Claim C7 holds: whenever `serialize` succeeds, each of the provider,
variable, data, resource and output sections is present in the document
exactly when the corresponding entity sequence is nonempty; in
particular a stack with no entities at all serializes to a document
with only the terraform section (state-path backend plus an empty
`required_providers`). -/
theorem c7_sections_omitted_iff_empty {α : Type} (s : Stack α) (p : String) (d : Doc α)
    (h : serialize s p = .ok d) :
    (d.providerSection = none ↔ s.providers = []) ∧
    (d.variableSection = none ↔ s.vars = []) ∧
    (d.dataSection = none ↔ s.datasources = []) ∧
    (d.resourceSection = none ↔ s.resources = []) ∧
    (d.outputSection = none ↔ s.outputs = []) ∧
    (s.providers = [] → s.vars = [] → s.datasources = [] → s.resources = [] →
      s.outputs = [] →
      d = { statePath := p, requiredProviders := [], providerSection := none,
            variableSection := none, dataSection := none, resourceSection := none,
            outputSection := none }) := by
  unfold serialize at h
  cases hv : buildFlat ComponentType.Variable [] s.vars with
  | error e => simp [hv, Bind.bind, Except.bind] at h
  | ok vars =>
  cases hda : buildNested ComponentType.Datasource [] s.datasources with
  | error e => simp [hv, hda, Bind.bind, Except.bind] at h
  | ok datas =>
  cases hre : buildNested ComponentType.Resource [] s.resources with
  | error e => simp [hv, hda, hre, Bind.bind, Except.bind] at h
  | ok ress =>
  cases ho : buildFlat ComponentType.Output [] s.outputs with
  | error e => simp [hv, hda, hre, ho, Bind.bind, Except.bind] at h
  | ok outs =>
  simp only [hv, hda, hre, ho, Bind.bind, Except.bind, pure, Except.pure,
    Except.ok.injEq] at h
  subst h
  refine ⟨?_, ?_, ?_, ?_, ?_, ?_⟩
  · by_cases hb : (providersMap s.providers).isEmpty
    · have : s.providers = [] :=
        (providersMap_empty_iff s.providers).mp (List.isEmpty_iff.mp hb)
      simp [hb, this, providersMap]
    · have hne : s.providers ≠ [] := by
        intro hp
        rw [hp] at hb
        exact hb rfl
      simp [hb, hne]
  · by_cases hb : vars.isEmpty
    · have : s.vars = [] := (buildFlat_empty_iff _ _ _ hv).mp (List.isEmpty_iff.mp hb)
      simp [hb, this]
    · have : s.vars ≠ [] := by
        intro hp
        exact hb (by simp [(buildFlat_empty_iff _ _ _ hv).mpr hp])
      simp [hb, this]
  · by_cases hb : datas.isEmpty
    · have : s.datasources = [] :=
        (buildNested_empty_iff _ _ _ hda).mp (List.isEmpty_iff.mp hb)
      simp [hb, this]
    · have : s.datasources ≠ [] := by
        intro hp
        exact hb (by simp [(buildNested_empty_iff _ _ _ hda).mpr hp])
      simp [hb, this]
  · by_cases hb : ress.isEmpty
    · have : s.resources = [] :=
        (buildNested_empty_iff _ _ _ hre).mp (List.isEmpty_iff.mp hb)
      simp [hb, this]
    · have : s.resources ≠ [] := by
        intro hp
        exact hb (by simp [(buildNested_empty_iff _ _ _ hre).mpr hp])
      simp [hb, this]
  · by_cases hb : outs.isEmpty
    · have : s.outputs = [] := (buildFlat_empty_iff _ _ _ ho).mp (List.isEmpty_iff.mp hb)
      simp [hb, this]
    · have : s.outputs ≠ [] := by
        intro hp
        exact hb (by simp [(buildFlat_empty_iff _ _ _ ho).mpr hp])
      simp [hb, this]
  · intro h1 h2 h3 h4 h5
    rw [h2] at hv
    rw [h3] at hda
    rw [h4] at hre
    rw [h5] at ho
    rw [buildFlat] at hv ho
    rw [buildNested] at hda hre
    cases hv
    cases hda
    cases hre
    cases ho
    simp [h1, providersMap, requiredProvidersMap]

/-! Claim C3: include/exclude precedence in the generator. -/

/-- Claim C3 is false on the code: with `include = ["widget"]` and
`exclude = ["widget"]` for a provider exposing the resource `widget`,
the generation run succeeds but generates nothing — the exclude test
runs after the whitelist test for resources, so a resource named in both
lists is skipped, not generated. -/
theorem c3_counterexample :
    generateRun ["widget"] ["widget"] ["widget"] [] = .ok [] ∧
    generateRun ["widget"] ["widget"] ["widget"] [] ≠ .ok ["widget"] := by
  constructor
  · rfl
  · intro h
    rw [show generateRun ["widget"] ["widget"] ["widget"] [] = .ok [] from rfl] at h
    simp at h

/-- Amended claim C3: when a name appears in both the include and the
exclude list of a whitelisted run, a *resource* with that name is
skipped (the exclude test still applies after the whitelist match,
though the include entry does count as matched), while a *datasource*
with that name is generated (the datasource loop never consults the
exclude set). -/
theorem c3_exclude_still_applies (st : GenState) (name : String)
    (h1 : st.inc.contains name = true) (h2 : st.exc.contains name = true) :
    (procResource true st name).generated = st.generated ∧
    (procDatasource true st name).generated = st.generated ++ [name] := by
  simp only [List.contains, List.elem_eq_mem, decide_eq_true_eq] at h1 h2
  constructor
  · simp [procResource, h1, h2]
  · simp [procDatasource, h1]

theorem c3_witness :
    (procResource true ⟨["widget"], ["widget"], []⟩ "widget").generated = [] ∧
    (procDatasource true ⟨["widget"], ["widget"], []⟩ "widget").generated = ["widget"] := by
  have h := c3_exclude_still_applies ⟨["widget"], ["widget"], []⟩ "widget"
    (by decide) (by decide)
  exact ⟨h.1, h.2⟩

/-! Claim C9: unmatched whitelist entries are a hard error. -/

theorem filter_and_comm (p q : String → Bool) (l : List String) :
    (l.filter p).filter q = l.filter fun x => p x && q x := by
  induction l with
  | nil => rfl
  | cons a t ih =>
    by_cases hp : p a
    · by_cases hq : q a <;> simp [List.filter_cons, hp, hq, ih]
    · simp [List.filter_cons, hp, ih]

theorem setErase_foldl (names : List String) :
    ∀ l : List String, names.foldl setErase l = l.filter fun x => !(names.contains x) := by
  induction names with
  | nil =>
    intro l
    simp [List.filter]
  | cons n t ih =>
    intro l
    rw [List.foldl_cons, ih (setErase l n), setErase, filter_and_comm]
    apply List.filter_congr
    intro a _
    simp only [List.contains_cons, beq_eq_decide, Bool.not_or]

theorem setErase_of_not_contains {l : List String} {name : String}
    (h : l.contains name = false) : setErase l name = l := by
  simp only [List.contains, List.elem_eq_mem, decide_eq_false_iff_not] at h
  apply List.filter_eq_self.mpr
  intro a ha
  have hne : a ≠ name := fun he => h (he ▸ ha)
  simp [hne]

theorem procResource_inc (st : GenState) (name : String) :
    (procResource true st name).inc = setErase st.inc name := by
  by_cases hc : name ∈ st.inc
  · simp [procResource, hc]
  · have hc' : st.inc.contains name = false := by
      simp [List.contains, hc]
    rw [setErase_of_not_contains hc']
    simp [procResource, hc]

theorem procDatasource_inc (st : GenState) (name : String) :
    (procDatasource true st name).inc = setErase st.inc name := by
  by_cases hc : name ∈ st.inc
  · simp [procDatasource, hc]
  · have hc' : st.inc.contains name = false := by
      simp [List.contains, hc]
    rw [setErase_of_not_contains hc']
    simp [procDatasource, hc]

theorem fold_procResource_inc (names : List String) :
    ∀ st : GenState,
    (names.foldl (procResource true) st).inc = names.foldl setErase st.inc := by
  induction names with
  | nil => intro st; rfl
  | cons n t ih =>
    intro st
    rw [List.foldl_cons, List.foldl_cons, ih, procResource_inc]

theorem fold_procDatasource_inc (names : List String) :
    ∀ st : GenState,
    (names.foldl (procDatasource true) st).inc = names.foldl setErase st.inc := by
  induction names with
  | nil => intro st; rfl
  | cons n t ih =>
    intro st
    rw [List.foldl_cons, List.foldl_cons, ih, procDatasource_inc]

/-- Claim C9 holds: in a whitelisted run, the include entries matched by
no resource or datasource name are exactly
`include.filter (fun n => n not among the processed names)`, and when
that set is nonempty the run fails with exactly that set. -/
theorem c9_unmatched_whitelist_error (inc exc resources datasources : List String)
    (hinc : inc ≠ [])
    (hrem : (inc.filter fun n => !((resources ++ datasources).contains n)) ≠ []) :
    generateRun inc exc resources datasources =
      .error (inc.filter fun n => !((resources ++ datasources).contains n)) := by
  have hwl : inc.isEmpty = false := by
    cases inc
    · exact absurd rfl hinc
    · rfl
  have hinc2 :
      ((datasources.foldl (procDatasource true)
          (resources.foldl (procResource true) ⟨inc, exc, []⟩)).inc) =
        inc.filter fun n => !((resources ++ datasources).contains n) := by
    rw [fold_procDatasource_inc, fold_procResource_inc]
    show (datasources.foldl setErase (resources.foldl setErase inc)) = _
    rw [← List.foldl_append, setErase_foldl]
  have hne : ((datasources.foldl (procDatasource true)
      (resources.foldl (procResource true) ⟨inc, exc, []⟩)).inc).isEmpty = false := by
    rw [hinc2]
    cases h : (inc.filter fun n => !((resources ++ datasources).contains n)) with
    | nil => exact absurd h hrem
    | cons a t => rfl
  simp only [generateRun, hwl, Bool.not_false]
  rw [hne]
  simp [hinc2]

theorem c9_witness :
    (["widget", "missing"] : List String) ≠ [] ∧
    ((["widget", "missing"] : List String).filter
      fun n => !(((["widget", "gadget"] ++ []) : List String).contains n)) ≠ [] ∧
    generateRun ["widget", "missing"] [] ["widget", "gadget"] [] = .error ["missing"] := by
  refine ⟨by decide, by decide, ?_⟩
  have h := c9_unmatched_whitelist_error ["widget", "missing"] [] ["widget", "gadget"] []
    (by decide) (by decide)
  rw [h]
  rfl

theorem c7_witness :
    serialize (α := String) ⟨[], [], [], [], [], []⟩ "p" =
      .ok ⟨"p", [], none, none, none, none, none⟩ ∧
    (⟨"p", [], none, none, none, none, none⟩ : Doc String) =
      { statePath := "p", requiredProviders := [], providerSection := none,
        variableSection := none, dataSection := none, resourceSection := none,
        outputSection := none } := by
  have h := c7_sections_omitted_iff_empty (α := String) ⟨[], [], [], [], [], []⟩ "p"
    ⟨"p", [], none, none, none, none, none⟩ rfl
  exact ⟨rfl, h.2.2.2.2.2 rfl rfl rfl rfl rfl⟩

/-! Occurrence-counting and substitution lemmas for claim C4. -/

theorem countOcc_le_append_left (p y : List Char) :
    ∀ x : List Char, countOcc p y ≤ countOcc p (x ++ y) := by
  intro x
  induction x with
  | nil => simp [le_refl]
  | cons c t ih =>
    rw [List.cons_append, countOcc]
    exact ih.trans (Nat.le_add_left _ _)

theorem countOcc_pos_of_pre {p s : List Char} (hp : p ≠ []) (h : p <+: s) :
    1 ≤ countOcc p s := by
  cases s with
  | nil => exact absurd (List.prefix_nil.mp h) hp
  | cons c t =>
    rw [countOcc, if_pos h]
    exact Nat.le_add_right _ _

theorem countOcc_append_self {p : List Char} (hp : p ≠ []) (b : List Char) :
    1 + countOcc p b ≤ countOcc p (p ++ b) := by
  cases p with
  | nil => exact absurd rfl hp
  | cons c p' =>
    have hpre : (c :: p') <+: c :: (p' ++ b) := by
      rw [← List.cons_append]
      exact List.prefix_append _ _
    rw [List.cons_append, countOcc, if_pos hpre]
    exact Nat.add_le_add_left (countOcc_le_append_left _ _ p') 1

theorem replaceAll_nil_pattern (r s : List Char) : replaceAll [] r s = s := by
  rw [replaceAll.eq_def]
  rfl

theorem replaceAll_nil {p r : List Char} (hp : p ≠ []) : replaceAll p r [] = [] := by
  rw [replaceAll.eq_def, dif_neg hp]

theorem replaceAll_cons_pos {p : List Char} (r : List Char) {c : Char} {t : List Char}
    (hp : p ≠ []) (h : p <+: c :: t) :
    replaceAll p r (c :: t) = r ++ replaceAll p r (t.drop (p.length - 1)) := by
  rw [replaceAll.eq_def, dif_neg hp]
  simp [h]

theorem replaceAll_cons_neg {p : List Char} (r : List Char) {c : Char} {t : List Char}
    (hp : p ≠ []) (h : ¬(p <+: c :: t)) :
    replaceAll p r (c :: t) = c :: replaceAll p r t := by
  rw [replaceAll.eq_def, dif_neg hp]
  simp [h]

theorem replaceAll_of_countOcc_zero {p : List Char} (r : List Char) :
    ∀ s : List Char, countOcc p s = 0 → replaceAll p r s = s := by
  intro s
  induction s with
  | nil =>
    intro _
    by_cases hp : p = []
    · rw [hp, replaceAll_nil_pattern]
    · exact replaceAll_nil hp
  | cons c t ih =>
    intro h
    by_cases hp : p = []
    · rw [hp, replaceAll_nil_pattern]
    · have hnpre : ¬(p <+: c :: t) := by
        intro hcon
        have := countOcc_pos_of_pre hp hcon
        omega
      rw [replaceAll_cons_neg r hp hnpre]
      rw [countOcc, if_neg hnpre] at h
      rw [ih (by omega)]

theorem replaceAll_of_unique {p : List Char} (r : List Char) (hp : p ≠ []) :
    ∀ a b : List Char, countOcc p (a ++ (p ++ b)) = 1 →
    replaceAll p r (a ++ (p ++ b)) = a ++ (r ++ b) := by
  intro a
  induction a with
  | nil =>
    intro b h
    simp only [List.nil_append] at h ⊢
    cases p with
    | nil => exact absurd rfl hp
    | cons c p' =>
      have hpre : (c :: p') <+: c :: (p' ++ b) := by
        rw [← List.cons_append]
        exact List.prefix_append _ _
      rw [show (c :: p') ++ b = c :: (p' ++ b) from rfl,
        replaceAll_cons_pos r hp hpre]
      have hdrop : (p' ++ b).drop ((c :: p').length - 1) = b := by
        simp only [List.length_cons, Nat.add_sub_cancel]
        exact List.drop_left' rfl
      rw [hdrop]
      have hb : countOcc (c :: p') b = 0 := by
        have := countOcc_append_self hp b
        omega
      rw [replaceAll_of_countOcc_zero r b hb]
  | cons c a' ih =>
    intro b h
    rw [List.cons_append] at h ⊢
    have hocc : 1 ≤ countOcc p (a' ++ (p ++ b)) :=
      (countOcc_pos_of_pre hp (List.prefix_append p b)).trans
        (countOcc_le_append_left p (p ++ b) a')
    have hnp : ¬(p <+: c :: (a' ++ (p ++ b))) := by
      intro hcon
      rw [countOcc, if_pos hcon] at h
      omega
    rw [replaceAll_cons_neg r hp hnp]
    rw [countOcc, if_neg hnp] at h
    rw [ih b (by omega)]
    rfl

theorem prefix_append_iff_of_le {p : List Char} (y z : List Char)
    (h : p.length ≤ y.length) : p <+: (y ++ z) ↔ p <+: y := by
  constructor
  · intro hpre
    have h1 : p = (y ++ z).take p.length := List.prefix_iff_eq_take.mp hpre
    have h2 : (y ++ z).take p.length = y.take p.length := by
      rw [List.take_append_eq_append_take, Nat.sub_eq_zero_of_le h, List.take_zero,
        List.append_nil]
    rw [h2] at h1
    exact h1 ▸ List.take_prefix _ _
  · intro hpre
    exact hpre.trans (List.prefix_append y z)

theorem countOcc_zero_outside {t r : List Char} (ht : t ≠ []) (hr : r ≠ [])
    (hTR : countOcc r t = 0) :
    ∀ a b : List Char, countOcc t (a ++ r) = 0 → countOcc t (r ++ b) = 0 →
    countOcc t (a ++ (r ++ b)) = 0 := by
  intro a
  induction a with
  | nil =>
    intro b _ hR
    simpa using hR
  | cons c a' ih =>
    intro b hL hR
    rw [List.cons_append] at hL ⊢
    by_cases hpre : t <+: c :: (a' ++ (r ++ b))
    · exfalso
      by_cases hlen : t.length ≤ (c :: (a' ++ r)).length
      · have hw : c :: (a' ++ (r ++ b)) = (c :: (a' ++ r)) ++ b := by simp
        rw [hw] at hpre
        have hin : t <+: c :: (a' ++ r) := (prefix_append_iff_of_le _ _ hlen).mp hpre
        have := countOcc_pos_of_pre ht hin
        omega
      · push_neg at hlen
        have hw : c :: (a' ++ (r ++ b)) = (c :: (a' ++ r)) ++ b := by simp
        rw [hw] at hpre
        have hsub : (c :: (a' ++ r)) <+: t :=
          List.prefix_of_prefix_length_le (List.prefix_append _ _) hpre (le_of_lt hlen)
        obtain ⟨w, hwq⟩ := hsub
        have hrt : 1 ≤ countOcc r t := by
          rw [← hwq]
          have he : (c :: (a' ++ r)) ++ w = (c :: a') ++ (r ++ w) := by simp
          rw [he]
          exact (countOcc_pos_of_pre hr (List.prefix_append r w)).trans
            (countOcc_le_append_left r (r ++ w) (c :: a'))
        omega
    · rw [countOcc, if_neg hpre]
      have hL2 : countOcc t (a' ++ r) = 0 := by
        rw [countOcc] at hL
        omega
      rw [ih b hL2 hR]

theorem countOcc_replaced_one {r : List Char} (hr : r ≠ []) :
    ∀ a b : List Char, countOcc r (a ++ r) = 1 → countOcc r (r ++ b) = 1 →
    countOcc r (a ++ (r ++ b)) = 1 := by
  intro a
  induction a with
  | nil =>
    intro b _ h2
    simpa using h2
  | cons c a' ih =>
    intro b h1 h2
    have hge : 1 ≤ countOcc r (a' ++ r) :=
      (countOcc_pos_of_pre hr List.prefix_rfl).trans (countOcc_le_append_left r r a')
    rw [List.cons_append, countOcc] at h1
    have h1head : ¬(r <+: c :: (a' ++ r)) := by
      intro hcon
      rw [if_pos hcon] at h1
      omega
    have h1tail : countOcc r (a' ++ r) = 1 := by
      rw [if_neg h1head] at h1
      omega
    rw [List.cons_append, countOcc]
    have hghead : ¬(r <+: c :: (a' ++ (r ++ b))) := by
      intro hcon
      have hw : c :: (a' ++ (r ++ b)) = (c :: (a' ++ r)) ++ b := by simp
      rw [hw] at hcon
      have hlen : r.length ≤ (c :: (a' ++ r)).length := by
        simp only [List.length_cons, List.length_append]
        omega
      exact h1head ((prefix_append_iff_of_le _ _ hlen).mp hcon)
    rw [if_neg hghead, ih b h1tail h2]

/-! Claim C4: the sentinel invariant under resolution. -/

/-- Claim C4 holds: for an expression `v` registered through
`add_sentinel` on a fresh ledger, resolving the serialized document
`a ++ token ++ b` (the single substitution pass over the rendered
document) replaces the token by its ledger text `"${v}"`, after which
the document contains zero occurrences of the raw sentinel token and
exactly one occurrence of the resolved expression text.  The hypotheses
are the spec's own well-formedness invariants: the token occurs exactly
once in the rendered document, occurs nowhere next to or instead of the
resolved text, the resolved text does not occur inside the token
(non-nesting), and the resolved text occurs exactly once in each of the
substituted halves. -/
theorem c4_sentinel_resolution (v : String) (a b : List Char)
    (h1 : countOcc (sentinelToken 0) (a ++ (sentinelToken 0 ++ b)) = 1)
    (h2 : countOcc (sentinelToken 0) (a ++ sentinelValue v) = 0)
    (h3 : countOcc (sentinelToken 0) (sentinelValue v ++ b) = 0)
    (h4 : countOcc (sentinelValue v) (sentinelToken 0) = 0)
    (h5 : countOcc (sentinelValue v) (a ++ sentinelValue v) = 1)
    (h6 : countOcc (sentinelValue v) (sentinelValue v ++ b) = 1) :
    resolveAll (addSentinel [] v).2 (a ++ (sentinelToken 0 ++ b)) =
      a ++ (sentinelValue v ++ b) ∧
    countOcc (sentinelToken 0) (a ++ (sentinelValue v ++ b)) = 0 ∧
    countOcc (sentinelValue v) (a ++ (sentinelValue v ++ b)) = 1 := by
  have ht : sentinelToken 0 ≠ [] := by decide
  have hr : sentinelValue v ≠ [] := by
    rw [sentinelValue]
    simp [String.data_append]
  refine ⟨?_, countOcc_zero_outside ht hr h4 a b h2 h3,
    countOcc_replaced_one hr a b h5 h6⟩
  show replaceAll (sentinelToken 0) (sentinelValue v) (a ++ (sentinelToken 0 ++ b)) = _
  exact replaceAll_of_unique (sentinelValue v) ht a b h1

theorem c4_witness :
    countOcc (sentinelToken 0)
        (("key: ").data ++ (sentinelToken 0 ++ (" end").data)) = 1 ∧
    resolveAll (addSentinel [] "res.attr").2
        (("key: ").data ++ (sentinelToken 0 ++ (" end").data)) =
      ("key: ").data ++ (sentinelValue "res.attr" ++ (" end").data) ∧
    countOcc (sentinelToken 0)
        (("key: ").data ++ (sentinelValue "res.attr" ++ (" end").data)) = 0 ∧
    countOcc (sentinelValue "res.attr")
        (("key: ").data ++ (sentinelValue "res.attr" ++ (" end").data)) = 1 := by
  have h := c4_sentinel_resolution "res.attr" ("key: ").data (" end").data
    (by decide) (by decide) (by decide) (by decide) (by decide) (by decide)
  exact ⟨by decide, h.1, h.2.1, h.2.2⟩

/-! Build-success and permutation-invariance lemmas for claim C5. -/

theorem buildFlat_ok {α : Type} (kind : ComponentType) :
    ∀ (l acc : List (String × α)),
    (l.map Prod.fst).Nodup →
    (∀ x ∈ l.map Prod.fst, btFind x acc = none) →
    buildFlat kind acc l = .ok (l.foldl (fun m kv => btInsert kv.1 kv.2 m) acc) := by
  intro l
  induction l with
  | nil => intro acc _ _; rfl
  | cons kv t ih =>
    intro acc hnd hdisj
    obtain ⟨k, v⟩ := kv
    rw [List.map_cons] at hnd
    have hnd' := List.nodup_cons.mp hnd
    have hk : btFind k acc = none :=
      hdisj k (by rw [List.map_cons]; exact List.mem_cons_self _ _)
    rw [buildFlat, hk]
    simp only [Option.isSome_none, Bool.false_eq_true, if_false]
    rw [List.foldl_cons]
    apply ih
    · exact hnd'.2
    · intro x hx
      have hxk : x ≠ k := by
        intro he
        subst he
        exact hnd'.1 hx
      rw [btFind_btInsert_ne hxk]
      exact hdisj x (by rw [List.map_cons]; exact List.mem_cons_of_mem _ hx)

theorem foldl_btInsert_perm {α : Type} :
    ∀ {l1 l2 : List (String × α)}, l1.Perm l2 → (l1.map Prod.fst).Nodup →
    ∀ acc, l1.foldl (fun m kv => btInsert kv.1 kv.2 m) acc =
      l2.foldl (fun m kv => btInsert kv.1 kv.2 m) acc := by
  intro l1 l2 h
  induction h with
  | nil => intro _ _; rfl
  | cons x hperm ih =>
    intro hnd acc
    rw [List.map_cons] at hnd
    rw [List.foldl_cons, List.foldl_cons]
    exact ih (List.nodup_cons.mp hnd).2 _
  | swap x y t =>
    intro hnd acc
    rw [List.map_cons, List.map_cons] at hnd
    have h1 := List.nodup_cons.mp hnd
    have hne : x.1 ≠ y.1 := by
      intro he
      exact h1.1 (by rw [← he]; exact List.mem_cons_self _ _)
    rw [List.foldl_cons, List.foldl_cons, List.foldl_cons, List.foldl_cons,
      btInsert_comm hne]
  | trans h1 h2 ih1 ih2 =>
    intro hnd acc
    rw [ih1 hnd acc, ih2 (((h1.map Prod.fst).nodup_iff).mp hnd) acc]

theorem buildNested_ok {α : Type} (kind : ComponentType) :
    ∀ (l : List (String × String × α)) (acc : List (String × List (String × α))),
    (l.map fun x => (x.1, x.2.1)).Nodup →
    (∀ x ∈ l, btFind x.2.1 ((btFind x.1 acc).getD []) = none) →
    buildNested kind acc l =
      .ok (l.foldl (fun m x => nestedIns x.1 x.2.1 x.2.2 m) acc) := by
  intro l
  induction l with
  | nil => intro acc _ _; rfl
  | cons e t ih =>
    intro acc hnd hdisj
    obtain ⟨ty, tfId, v⟩ := e
    rw [List.map_cons] at hnd
    have hnd' := List.nodup_cons.mp hnd
    have hk : btFind tfId ((btFind ty acc).getD []) = none :=
      hdisj _ (List.mem_cons_self _ _)
    rw [buildNested, hk]
    simp only [Option.isSome_none, Bool.false_eq_true, if_false]
    rw [List.foldl_cons]
    apply ih
    · exact hnd'.2
    · intro y hy
      have hpair : (y.1, y.2.1) ≠ (ty, tfId) := by
        intro he
        apply hnd'.1
        rw [← he]
        exact List.mem_map_of_mem _ hy
      by_cases hys : y.1 = ty
      · have hid : y.2.1 ≠ tfId := by
          intro he
          exact hpair (by rw [hys, he])
        show btFind y.2.1 ((btFind y.1 (nestedIns ty tfId v acc)).getD []) = none
        rw [hys, nestedIns, btFind_btInsert_self]
        simp only [Option.getD_some]
        rw [btFind_btInsert_ne hid]
        have := hdisj y (List.mem_cons_of_mem _ hy)
        rw [hys] at this
        exact this
      · show btFind y.2.1 ((btFind y.1 (nestedIns ty tfId v acc)).getD []) = none
        rw [nestedIns, btFind_btInsert_ne hys]
        exact hdisj y (List.mem_cons_of_mem _ hy)

theorem nestedIns_comm {α : Type} {ty1 id1 ty2 id2 : String}
    (h : (ty1, id1) ≠ (ty2, id2)) (v1 v2 : α)
    (m : List (String × List (String × α))) :
    nestedIns ty1 id1 v1 (nestedIns ty2 id2 v2 m) =
      nestedIns ty2 id2 v2 (nestedIns ty1 id1 v1 m) := by
  by_cases hty : ty1 = ty2
  · subst hty
    have hid : id1 ≠ id2 := by
      intro he
      exact h (by rw [he])
    simp only [nestedIns]
    rw [btFind_btInsert_self, btFind_btInsert_self]
    simp only [Option.getD_some]
    rw [btInsert_btInsert_self, btInsert_btInsert_self, btInsert_comm hid]
  · simp only [nestedIns]
    rw [btFind_btInsert_ne hty, btFind_btInsert_ne (fun he => hty he.symm)]
    exact btInsert_comm hty _ _ _

theorem foldl_nestedIns_perm {α : Type} :
    ∀ {l1 l2 : List (String × String × α)}, l1.Perm l2 →
    (l1.map fun x => (x.1, x.2.1)).Nodup →
    ∀ acc, l1.foldl (fun m x => nestedIns x.1 x.2.1 x.2.2 m) acc =
      l2.foldl (fun m x => nestedIns x.1 x.2.1 x.2.2 m) acc := by
  intro l1 l2 h
  induction h with
  | nil => intro _ _; rfl
  | cons x hperm ih =>
    intro hnd acc
    rw [List.map_cons] at hnd
    rw [List.foldl_cons, List.foldl_cons]
    exact ih (List.nodup_cons.mp hnd).2 _
  | swap x y t =>
    intro hnd acc
    rw [List.map_cons, List.map_cons] at hnd
    have h1 := List.nodup_cons.mp hnd
    have hne : (x.1, x.2.1) ≠ (y.1, y.2.1) := by
      intro he
      exact h1.1 (by rw [← he]; exact List.mem_cons_self _ _)
    rw [List.foldl_cons, List.foldl_cons, List.foldl_cons, List.foldl_cons,
      nestedIns_comm hne]
  | trans h1 h2 ih1 ih2 =>
    intro hnd acc
    rw [ih1 hnd acc, ih2 (((h1.map fun x => (x.1, x.2.1)).nodup_iff).mp hnd) acc]

/-! Claim C5: idempotence and insertion-order independence. -/

/-- Claim C5 is false as stated: the two stacks below hold the same
entities (their provider sequences are permutations of each other,
everything else empty and equal), yet they serialize to different
documents with different rendered bytes, because the provider section
lists same-type provider values in insertion order. -/
theorem c5_counterexample :
    ([⟨"aws", "tv1", "pv1"⟩, ⟨"aws", "tv2", "pv2"⟩] : List (ProviderE String)).Perm
      [⟨"aws", "tv2", "pv2"⟩, ⟨"aws", "tv1", "pv1"⟩] ∧
    serialize (α := String)
        ⟨[⟨"aws", "tv1", "pv1"⟩, ⟨"aws", "tv2", "pv2"⟩], [], [], [], [], []⟩ "s" =
      .ok ⟨"s", [("aws", "tv1")], some [("aws", ["pv1", "pv2"])],
        none, none, none, none⟩ ∧
    serialize (α := String)
        ⟨[⟨"aws", "tv2", "pv2"⟩, ⟨"aws", "tv1", "pv1"⟩], [], [], [], [], []⟩ "s" =
      .ok ⟨"s", [("aws", "tv2")], some [("aws", ["pv2", "pv1"])],
        none, none, none, none⟩ ∧
    (⟨"s", [("aws", "tv1")], some [("aws", ["pv1", "pv2"])],
        none, none, none, none⟩ : Doc String) ≠
      ⟨"s", [("aws", "tv2")], some [("aws", ["pv2", "pv1"])],
        none, none, none, none⟩ ∧
    renderDoc ⟨"s", [("aws", "tv1")], some [("aws", ["pv1", "pv2"])],
        none, none, none, none⟩ ≠
      renderDoc ⟨"s", [("aws", "tv2")], some [("aws", ["pv2", "pv1"])],
        none, none, none, none⟩ := by
  refine ⟨by decide, ?_, ?_, by decide, by decide⟩
  · simp [serialize, requiredProvidersMap, providersMap, reqStep, provStep, buildFlat,
      buildNested, btFind, btInsert, Bind.bind, Except.bind, pure, Except.pure,
      lt_self_iff_false]
  · simp [serialize, requiredProvidersMap, providersMap, reqStep, provStep, buildFlat,
      buildNested, btFind, btInsert, Bind.bind, Except.bind, pure, Except.pure,
      lt_self_iff_false]

/-- Amended claim C5: serializing the same stack twice with the same
state path and no mutation in between yields identical documents (the
call does not mutate the stack, and on a successful return it resets
the substitution thread-local to `None`; a duplicate error returns
before the reset); and two stacks holding the same entities yield
identical documents provided the provider sequences are *equal* (not
merely permuted) — for the id-keyed sections (variables, datasources,
resources, outputs), any permutation with duplicate-free `(type, id)`
keys leaves the document unchanged, but the per-type provider lists
preserve insertion order, so same-type providers must be added in the
same order. -/
theorem c5_idempotent_and_order_independent {α : Type} (p : String)
    (tl : Option (List (String × String))) (s1 s2 : Stack α) :
    ((serializeCall s1 p tl).1 =
      (serializeCall (serializeCall s1 p tl).2.1 p (serializeCall s1 p tl).2.2).1) ∧
    ((serializeCall s1 p tl).2.1 = s1) ∧
    (∀ d : Doc α, serialize s1 p = .ok d → (serializeCall s1 p tl).2.2 = none) ∧
    (s1.providers = s2.providers → s1.replaceExprs = s2.replaceExprs →
      s1.vars.Perm s2.vars → (s1.vars.map Prod.fst).Nodup →
      s1.datasources.Perm s2.datasources →
      (s1.datasources.map fun x => (x.1, x.2.1)).Nodup →
      s1.resources.Perm s2.resources →
      (s1.resources.map fun x => (x.1, x.2.1)).Nodup →
      s1.outputs.Perm s2.outputs → (s1.outputs.map Prod.fst).Nodup →
      serialize s1 p = serialize s2 p) := by
  refine ⟨rfl, rfl, ?_, ?_⟩
  · intro d hd
    simp only [serializeCall]
    rw [hd]
  intro hp _hre hv hvnd hd hdnd hr hrnd ho hond
  have hvars : buildFlat ComponentType.Variable [] s1.vars =
      buildFlat ComponentType.Variable [] s2.vars := by
    rw [buildFlat_ok ComponentType.Variable s1.vars [] hvnd (fun x _ => rfl),
      buildFlat_ok ComponentType.Variable s2.vars []
        (((hv.map Prod.fst).nodup_iff).mp hvnd) (fun x _ => rfl),
      foldl_btInsert_perm hv hvnd]
  have hdatas : buildNested ComponentType.Datasource [] s1.datasources =
      buildNested ComponentType.Datasource [] s2.datasources := by
    rw [buildNested_ok ComponentType.Datasource s1.datasources [] hdnd (fun x _ => rfl),
      buildNested_ok ComponentType.Datasource s2.datasources []
        (((hd.map fun x => (x.1, x.2.1)).nodup_iff).mp hdnd) (fun x _ => rfl),
      foldl_nestedIns_perm hd hdnd]
  have hress : buildNested ComponentType.Resource [] s1.resources =
      buildNested ComponentType.Resource [] s2.resources := by
    rw [buildNested_ok ComponentType.Resource s1.resources [] hrnd (fun x _ => rfl),
      buildNested_ok ComponentType.Resource s2.resources []
        (((hr.map fun x => (x.1, x.2.1)).nodup_iff).mp hrnd) (fun x _ => rfl),
      foldl_nestedIns_perm hr hrnd]
  have houts : buildFlat ComponentType.Output [] s1.outputs =
      buildFlat ComponentType.Output [] s2.outputs := by
    rw [buildFlat_ok ComponentType.Output s1.outputs [] hond (fun x _ => rfl),
      buildFlat_ok ComponentType.Output s2.outputs []
        (((ho.map Prod.fst).nodup_iff).mp hond) (fun x _ => rfl),
      foldl_btInsert_perm ho hond]
  unfold serialize
  rw [hp, hvars, hdatas, hress, houts]

theorem c5_witness :
    serialize (α := String)
        ⟨[⟨"aws", "tv", "pv"⟩], [("v1", "a"), ("v2", "b")], [], [("x_thing", "i", "rv")],
          [], []⟩ "s" =
      serialize (α := String)
        ⟨[⟨"aws", "tv", "pv"⟩], [("v2", "b"), ("v1", "a")], [], [("x_thing", "i", "rv")],
          [], []⟩ "s" := by
  exact (c5_idempotent_and_order_independent "s" none
      ⟨[⟨"aws", "tv", "pv"⟩], [("v1", "a"), ("v2", "b")], [], [("x_thing", "i", "rv")],
        [], []⟩
      ⟨[⟨"aws", "tv", "pv"⟩], [("v2", "b"), ("v1", "a")], [], [("x_thing", "i", "rv")],
        [], []⟩).2.2.2
    rfl rfl (by decide) (by decide) (by decide) (by decide) (by decide) (by decide)
    (by decide) (by decide)

end Terrars

